import Mathlib

/-!
Verification development for the fetch-throttler repository.

The development shallowly embeds the two components of the library:

* `Bucket` — the token-bucket class of `src/bucket.js`: a token level, a
  replenishment configuration, a FIFO queue of pending `Queuer`s, and a
  replenishment timer flag (`timerActive` stands for
  `#intervalId !== undefined`).  JS numbers are modelled as `Int`; no claim
  under scrutiny depends on fractional values.
* `ThrottlerState` — the `FetchThrottler` class: its single
  `Map<string,{throttle,bucket}>` is modelled as an association list from
  hostname to the sanitized throttle plus a reference into a bucket heap.
  The heap (`heap : List (Nat × Bucket)`) models JS object identity: several
  hostnames of one throttle share one bucket object, and deleting a map entry
  does not destroy the bucket object it pointed to.

Promise resolution is modelled by returning the list of `Queuer`s whose
`resolve` callback fires during an operation, in call order.
-/

/-- A queue entry: `{ count, resolve }` in `bucket.js`.  The `resolve`
callback is represented by a request identifier `rid`, so that completion
order can be tracked. -/
structure Queuer where
  count : Int
  rid : Nat
deriving DecidableEq, Repr

instance : Inhabited Queuer := ⟨⟨0, 0⟩⟩

/-- `BucketOptions` of `bucket.js` (all fields optional, with defaults applied
by the constructor). -/
structure BucketOptions where
  initialTokens : Option Int
  interval : Option Int
  tokensPerInterval : Option Int
  maxTokens : Option Int
deriving DecidableEq, Repr

/-- Bucket state.  `timerActive` models `#intervalId !== undefined`. -/
structure Bucket where
  tokens : Int
  interval : Int
  tokensPerInterval : Int
  maxTokens : Int
  timerActive : Bool
  queue : List Queuer
deriving DecidableEq, Repr

/-- `new Bucket(options)`: defaults `initialTokens ?? 1`, `interval ?? 1000`,
`tokensPerInterval ?? 1`, `maxTokens ?? (tokens === 0 ? 1 : tokens)`.
No clamping is performed and no timer is started. -/
def Bucket.construct (o : BucketOptions) : Bucket :=
  let t := o.initialTokens.getD 1
  { tokens := t
    interval := o.interval.getD 1000
    tokensPerInterval := o.tokensPerInterval.getD 1
    maxTokens := o.maxTokens.getD (if t = 0 then 1 else t)
    timerActive := false
    queue := [] }

/-- The loop body of `Bucket.#take`: starting from token level `t`, scan the
queue from the front; while the head's `count` fits, debit it and resolve the
head; stop at the first entry that does not fit.  Returns the final level, the
resolved entries in order, and the remaining queue (the `slice(i)`). -/
def takeLoop : Int → List Queuer → Int × List Queuer × List Queuer
  | t, [] => (t, [], [])
  | t, q :: rest =>
    if q.count ≤ t then
      let r := takeLoop (t - q.count) rest
      (r.1, q :: r.2.1, r.2.2)
    else
      (t, [], q :: rest)

/-- `Bucket.#take()`: drain the queue front-to-back as far as tokens allow. -/
def Bucket.take (b : Bucket) : Bucket × List Queuer :=
  let r := takeLoop b.tokens b.queue
  ({ b with tokens := r.1, queue := r.2.2 }, r.2.1)

/-- Outcome of one `removeTokens` call: whether the returned promise was
rejected synchronously (`count > maxTokens`), and which queue entries were
resolved during the call. -/
structure RemoveResult where
  rejected : Bool
  resolved : List Queuer
deriving DecidableEq, Repr

/-- `Bucket.removeTokens(count)` from `src/bucket.js`: reject when
`count > maxTokens`, then (unconditionally — the source has no early return)
push `{count, resolve}` onto the queue, run `#take()`, and start the timer
when no timer is running and `tokens < maxTokens`. -/
def Bucket.removeTokens (b : Bucket) (q : Queuer) : Bucket × RemoveResult :=
  let rejected := decide (b.maxTokens < q.count)
  let p := Bucket.take { b with queue := b.queue ++ [q] }
  let b2 := p.1
  let b3 := if b2.timerActive = false ∧ b2.tokens < b2.maxTokens
            then { b2 with timerActive := true } else b2
  (b3, { rejected := rejected, resolved := p.2 })

/-- The replenishment assignment of the interval callback:
`tokens = Math.min(tokens + tokensPerInterval, maxTokens)`. -/
def Bucket.tickRefill (b : Bucket) : Bucket :=
  { b with tokens := min (b.tokens + b.tokensPerInterval) b.maxTokens }

/-- One firing of the `setInterval` callback of `Bucket.#start`: replenish,
run `#take()`, and clear the timer when the bucket is full and the queue is
empty. -/
def Bucket.tick (b : Bucket) : Bucket × List Queuer :=
  let p := Bucket.take (Bucket.tickRefill b)
  let b1 := p.1
  let b2 := if b1.tokens = b1.maxTokens ∧ b1.queue = []
            then { b1 with timerActive := false } else b1
  (b2, p.2)

/-- An observable operation on a bucket: a `removeTokens` call, or one firing
of the replenishment timer. -/
inductive Op where
  | request (q : Queuer)
  | tickOp
deriving DecidableEq, Repr

/-- One operation, returning the next state and the entries resolved during
the operation.  A timer firing can only happen while a timer is active. -/
def Bucket.stepLog (b : Bucket) : Op → Bucket × List Queuer
  | .request q => let p := b.removeTokens q; (p.1, p.2.resolved)
  | .tickOp => if b.timerActive then b.tick else (b, [])

/-- Run a sequence of operations, collecting all resolutions in order. -/
def Bucket.runLog : Bucket → List Op → Bucket × List Queuer
  | b, [] => (b, [])
  | b, op :: ops =>
    let p := b.stepLog op
    let r := Bucket.runLog p.1 ops
    (r.1, p.2 ++ r.2)

/-- The state reached after a sequence of operations. -/
def Bucket.run (b : Bucket) (ops : List Op) : Bucket := (Bucket.runLog b ops).1

/-- The requests submitted in a trace, in submission order. -/
def requestsOf (ops : List Op) : List Queuer :=
  ops.filterMap fun op => match op with
    | .request q => some q
    | .tickOp => none

/-- Total token cost of a list of queue entries. -/
def countSum (l : List Queuer) : Int := (l.map Queuer.count).sum

/-- Tokens added to the bucket by one operation: zero for a `removeTokens`
call, and the effective (capacity-clamped) replenishment for a timer firing. -/
def refillOf (b : Bucket) : Op → Int
  | .request _ => 0
  | .tickOp =>
    if b.timerActive then min (b.tokens + b.tokensPerInterval) b.maxTokens - b.tokens
    else 0

/-- Total tokens added over a trace, accounted step by step. -/
def refillTotal : Bucket → List Op → Int
  | _, [] => 0
  | b, op :: ops => refillOf b op + refillTotal (b.stepLog op).1 ops

/-!
## The FetchThrottler layer

Embedded from the later `FetchThrottler` in the repository (the version the
claims reference): one `Map` from hostname to `{throttle, bucket}`, where the
bucket value is an object reference shared by all hostnames of the throttle.
Requests are represented by their HTTP method, the only attribute the
throttle predicate machinery reads.
-/

/-- The `interval` field of a raw `Throttle`: a raw millisecond count or one
of the keyword strings handled by `#addThrottle`. -/
inductive IntervalArg where
  | ms (n : Int)
  | keyword (s : String)
deriving DecidableEq, Repr

/-- The keyword conversion of `#addThrottle`: `second|minute|hour|day` become
their millisecond counts, any other string throws. -/
def sanitizeInterval : IntervalArg → Except String Int
  | .ms n => .ok n
  | .keyword s =>
    if s = "second" then .ok 1000
    else if s = "minute" then .ok (60 * 1000)
    else if s = "hour" then .ok (60 * 60 * 1000)
    else if s = "day" then .ok (24 * 60 * 60 * 1000)
    else .error (s ++ " is not a valid value.")

/-- The default `shouldThrottle` installed by `#addThrottle`: throttle exactly
the methods GET, POST, PUT, DELETE, PATCH. -/
def defaultShouldThrottle (method : String) : Bool :=
  method ∈ ["GET", "POST", "PUT", "DELETE", "PATCH"]

/-- A raw `Throttle` as passed to `add` (the `hostname` string-or-array field
is modelled as a list; `requestParams`/`requestOptions` carry no claim-relevant
content and are omitted). -/
structure Throttle where
  hostname : List String
  tokensPerInterval : Int
  interval : IntervalArg
  maxTokens : Option Int
  shouldThrottle : Option (String → Bool)

/-- A throttle after the input sanitation of `#addThrottle`. -/
structure SanThrottle where
  hostname : List String
  tokensPerInterval : Int
  intervalMs : Int
  maxTokens : Int
  shouldThrottle : String → Bool

/-- The input sanitation of `#addThrottle`: convert the interval, default
`maxTokens` to `tokensPerInterval`, default `shouldThrottle` to the verb
allow-list. -/
def sanitizeThrottle (t : Throttle) : Except String SanThrottle :=
  match sanitizeInterval t.interval with
  | .error e => .error e
  | .ok ms =>
    .ok { hostname := t.hostname
          tokensPerInterval := t.tokensPerInterval
          intervalMs := ms
          maxTokens := t.maxTokens.getD t.tokensPerInterval
          shouldThrottle := t.shouldThrottle.getD defaultShouldThrottle }

/-- The `FetchThrottler` state.  `map` is the private `#map` (hostname ↦
`{throttle, bucket}`); the bucket value is a reference (`Nat`) into `heap`,
which models the live `Bucket` objects, so that hostnames sharing a throttle
share one bucket and deleting a map entry leaves the object itself (and its
running timer) untouched. -/
structure ThrottlerState where
  map : List (String × SanThrottle × Nat)
  heap : List (Nat × Bucket)
  nextRef : Nat

/-- Association-list lookup, the semantics of `Map.get`. -/
def mfind (m : List (String × SanThrottle × Nat)) (h : String) :
    Option (SanThrottle × Nat) :=
  (m.find? fun e => e.1 = h).map Prod.snd

/-- `#map.get(hostname)`. -/
def lookupTh (s : ThrottlerState) (h : String) : Option (SanThrottle × Nat) :=
  mfind s.map h

/-- Dereference a bucket object. -/
def heapLookup (s : ThrottlerState) (r : Nat) : Option Bucket :=
  (s.heap.find? fun e => e.1 = r).map Prod.snd

/-- `Map.set`: replace any binding of the key and bind it to the value. -/
def mapSet (m : List (String × SanThrottle × Nat)) (k : String)
    (v : SanThrottle × Nat) : List (String × SanThrottle × Nat) :=
  (k, v) :: m.filter fun e => e.1 ≠ k

/-- Bind every hostname of the list to the value, in order
(the `for (const h of throttle.hostname)` loop). -/
def setAll (m : List (String × SanThrottle × Nat)) (hs : List String)
    (v : SanThrottle × Nat) : List (String × SanThrottle × Nat) :=
  match hs with
  | [] => m
  | k :: rest => setAll (mapSet m k v) rest v

/-- `FetchThrottler.#removeThrottle(hostname)`: `this.#map.delete(hostname)`.
Nothing else happens — in particular no bucket is touched. -/
def removeThrottle (s : ThrottlerState) (h : String) : ThrottlerState :=
  { s with map := s.map.filter fun e => e.1 ≠ h }

/-- `FetchThrottler.remove(hostname)` on a (possibly singleton) hostname
list. -/
def removeHostnames (s : ThrottlerState) (hs : List String) : ThrottlerState :=
  match hs with
  | [] => s
  | h :: rest => removeHostnames (removeThrottle s h) rest

/-- `FetchThrottler.clear()`: `this.#map.clear()`.  No bucket is touched. -/
def clearThrottler (s : ThrottlerState) : ThrottlerState :=
  { s with map := [] }

/-- The bucket allocated by `#addThrottle` for a sanitized throttle: note the
`maxTokens` bucket option is not passed, so the bucket defaults it from
`initialTokens`. -/
def freshBucket (st : SanThrottle) : Bucket :=
  Bucket.construct
    ⟨some st.maxTokens, some st.intervalMs, some st.tokensPerInterval, none⟩

/-- The registration part of `#addThrottle`: allocate the bucket object and
point every hostname of the throttle at `{throttle, bucket}`. -/
def addThrottle (s : ThrottlerState) (st : SanThrottle) : ThrottlerState :=
  { map := setAll s.map st.hostname (st, s.nextRef)
    heap := (s.nextRef, freshBucket st) :: s.heap
    nextRef := s.nextRef + 1 }

/-- One iteration of `FetchThrottler.add`: `this.remove(t.hostname)` then
`this.#addThrottle(t)` (which can throw on a bad interval keyword). -/
def addOne (s : ThrottlerState) (t : Throttle) : Except String ThrottlerState :=
  let s1 := removeHostnames s t.hostname
  match sanitizeThrottle t with
  | .error e => .error e
  | .ok st => .ok (addThrottle s1 st)

/-- What `FetchThrottler.fetch` does before any network call: either bypass
(no throttle configured for the hostname) or await
`bucket.removeTokens(options?.throttleTokens ?? 1)` on the mapped bucket. -/
inductive FetchAction where
  | bypass
  | throttled (bucketRef : Nat) (cost : Int)
deriving DecidableEq, Repr

/-- The admission decision of `FetchThrottler.fetch(request, options)`,
translated from the source: look the hostname up in `#map`; bypass when
absent; otherwise always await `removeTokens` with cost
`options?.throttleTokens ?? 1`.  The source consults nothing else — in
particular it never reads `throttle.shouldThrottle` and never looks at the
request method. -/
def fetchAction (s : ThrottlerState) (hostname : String)
    (throttleTokens : Option Int) : FetchAction :=
  match lookupTh s hostname with
  | none => .bypass
  | some (_, ref) => .throttled ref (throttleTokens.getD 1)

/-!
## Invariant definitions, operation-validity predicates, and concrete
states used in the claim theorems
-/

/-- Validity of a single operation against a capacity `m`: a `removeTokens`
call with `0 ≤ cost ≤ m` (the spec's satisfiable requests), or a timer
firing. -/
def opOK (m : Int) : Op → Prop
  | .request q => 0 ≤ q.count ∧ q.count ≤ m
  | .tickOp => True

/-- Validity of an operation for the level-bounds invariant: request costs are
non-negative. -/
def opNN : Op → Prop
  | .request q => 0 ≤ q.count
  | .tickOp => True

instance (m : Int) (op : Op) : Decidable (opOK m op) :=
  match op with
  | .request q => inferInstanceAs (Decidable (0 ≤ q.count ∧ q.count ≤ m))
  | .tickOp => inferInstanceAs (Decidable True)

instance (op : Op) : Decidable (opNN op) :=
  match op with
  | .request q => inferInstanceAs (Decidable (0 ≤ q.count))
  | .tickOp => inferInstanceAs (Decidable True)

/-- State invariant tying the timer flag to the bucket state, except for the
direction that fails on a freshly constructed bucket: level below capacity,
queue entries within `[0, capacity]`, a blocked queue head, a non-empty queue
forcing an active timer, and an active timer forcing work to do. -/
def InvT (b : Bucket) : Prop :=
  b.tokens ≤ b.maxTokens ∧
  (∀ q ∈ b.queue, 0 ≤ q.count ∧ q.count ≤ b.maxTokens) ∧
  (∀ q, b.queue.head? = some q → b.tokens < q.count) ∧
  (b.queue ≠ [] → b.timerActive = true) ∧
  (b.timerActive = true → b.tokens < b.maxTokens ∨ b.queue ≠ []) ∧
  (b.queue ≠ [] → b.tokens < b.maxTokens)

/-- The full timer invariant of the spec: `InvT` plus "work to do forces an
active timer". -/
def InvFull (b : Bucket) : Prop :=
  InvT b ∧ (b.tokens < b.maxTokens ∨ b.queue ≠ [] → b.timerActive = true)

/-- Level-bounds invariant: `0 ≤ tokens ≤ maxTokens`, with non-negative queued
costs. -/
def LevelInv (b : Bucket) : Prop :=
  0 ≤ b.tokens ∧ b.tokens ≤ b.maxTokens ∧ ∀ q ∈ b.queue, 0 ≤ q.count

/-- A predicate refusing throttling for every request. -/
def predNever : String → Bool := fun _ => false

/-- A predicate requesting throttling for every request. -/
def predTrue : String → Bool := fun _ => true

/-- The empty `FetchThrottler` state (`new FetchThrottler()`). -/
def emptyThrottler : ThrottlerState := ⟨[], [], 0⟩

/-- A raw throttle for `api.example.com` whose predicate refuses every
request. -/
def tC5 : Throttle := ⟨["api.example.com"], 2, .ms 1000, some 2, some predNever⟩

/-- `tC5` after `#addThrottle` input sanitation. -/
def stC5 : SanThrottle := ⟨["api.example.com"], 2, 1000, 2, predNever⟩

/-- A raw throttle for `h.example.com` relying on the default predicate. -/
def tC5d : Throttle := ⟨["h.example.com"], 2, .ms 1000, some 2, none⟩

/-- `tC5d` after `#addThrottle` input sanitation (default predicate
installed). -/
def stC5d : SanThrottle := ⟨["h.example.com"], 2, 1000, 2, defaultShouldThrottle⟩

/-- A sanitized throttle for `a.example.com` (used for the removal claim). -/
def stC6 : SanThrottle := ⟨["a.example.com"], 1, 1000, 2, predTrue⟩

/-- A bucket with a running replenishment timer: a capacity-2 bucket right
after a cost-1 `removeTokens`. -/
def bC6 : Bucket :=
  ((Bucket.construct ⟨some 2, none, none, none⟩).removeTokens ⟨1, 0⟩).1

/-- A throttler state mapping `a.example.com` (its only key) to a bucket
object whose timer is running. -/
def sC6 : ThrottlerState := ⟨[("a.example.com", stC6, 0)], [(0, bC6)], 1⟩

/-- A sanitized throttle occupying `api.example.com` before a replacement. -/
def stW : SanThrottle := ⟨["api.example.com"], 1, 1000, 3, predTrue⟩

/-- A depleted bucket: capacity 3 fully debited. -/
def bW : Bucket :=
  ((Bucket.construct ⟨some 3, none, none, none⟩).removeTokens ⟨3, 0⟩).1

/-- A throttler state in which `api.example.com` is already throttled by a
depleted bucket with pending state. -/
def sW : ThrottlerState := ⟨[("api.example.com", stW, 0)], [(0, bW)], 1⟩

/-- A replacement raw throttle covering `api.example.com`. -/
def tW : Throttle := ⟨["api.example.com"], 2, .ms 500, some 3, some predTrue⟩

/-- `tW` after `#addThrottle` input sanitation. -/
def stWnew : SanThrottle := ⟨["api.example.com"], 2, 500, 3, predTrue⟩

/-!
## Drain-loop lemmas
-/

example :
    (Bucket.construct ⟨some 5, none, none, none⟩).removeTokens ⟨5, 0⟩ =
      (⟨0, 1000, 1, 5, true, []⟩, ⟨false, [⟨5, 0⟩]⟩) := by decide

example :
    ((Bucket.construct ⟨some 0, none, none, some 3⟩).run
      [.request ⟨3, 0⟩, .tickOp, .tickOp, .tickOp]).tokens = 0 := by decide

example :
    fetchAction ⟨[], [], 0⟩ "example.com" none = .bypass := by decide

theorem takeLoop_partition (t : Int) (qs : List Queuer) :
    (takeLoop t qs).2.1 ++ (takeLoop t qs).2.2 = qs := by
  induction qs generalizing t with
  | nil => simp [takeLoop]
  | cons q rest ih =>
    simp only [takeLoop]
    by_cases h : q.count ≤ t
    · simp [h, ih]
    · simp [h]

theorem takeLoop_tokens (t : Int) (qs : List Queuer) :
    (takeLoop t qs).1 = t - countSum (takeLoop t qs).2.1 := by
  induction qs generalizing t with
  | nil => simp [takeLoop, countSum]
  | cons q rest ih =>
    simp only [takeLoop]
    by_cases h : q.count ≤ t
    · simp only [h, if_true]
      rw [ih (t - q.count)]
      simp [countSum]
      ring
    · simp [h, countSum]

theorem takeLoop_stop (t : Int) (qs : List Queuer) :
    (takeLoop t qs).2.2 = [] ∨
      (takeLoop t qs).1 < ((takeLoop t qs).2.2.headI).count := by
  induction qs generalizing t with
  | nil => simp [takeLoop]
  | cons q rest ih =>
    simp only [takeLoop]
    by_cases h : q.count ≤ t
    · simpa [h] using ih (t - q.count)
    · right
      simpa [h] using not_le.mp h

theorem takeLoop_nonneg (t : Int) (qs : List Queuer)
    (ht : 0 ≤ t) (hq : ∀ q ∈ qs, 0 ≤ q.count) :
    0 ≤ (takeLoop t qs).1 ∧ (takeLoop t qs).1 ≤ t := by
  induction qs generalizing t with
  | nil => simpa [takeLoop]
  | cons q rest ih =>
    simp only [takeLoop]
    by_cases h : q.count ≤ t
    · have hq0 : 0 ≤ q.count := hq q (List.mem_cons_self q rest)
      have h1 : 0 ≤ t - q.count := by omega
      have := ih (t - q.count) h1 (fun p hp => hq p (List.mem_cons_of_mem q hp))
      simp only [h, if_true]
      exact ⟨this.1, by omega⟩
    · simpa [h]

theorem takeLoop_rem_mem (t : Int) (qs : List Queuer) (q : Queuer)
    (h : q ∈ (takeLoop t qs).2.2) : q ∈ qs := by
  have hp := takeLoop_partition t qs
  exact hp ▸ List.mem_append_right _ h

theorem takeLoop_res_mem (t : Int) (qs : List Queuer) (q : Queuer)
    (h : q ∈ (takeLoop t qs).2.1) : q ∈ qs := by
  have hp := takeLoop_partition t qs
  exact hp ▸ List.mem_append_left _ h

theorem takeLoop_tokens_le (t : Int) (qs : List Queuer)
    (hq : ∀ q ∈ qs, 0 ≤ q.count) : (takeLoop t qs).1 ≤ t := by
  induction qs generalizing t with
  | nil => simp [takeLoop]
  | cons q rest ih =>
    simp only [takeLoop]
    by_cases h : q.count ≤ t
    · have hq0 : 0 ≤ q.count := hq q (List.mem_cons_self q rest)
      have := ih (t - q.count) (fun p hp => hq p (List.mem_cons_of_mem q hp))
      simp only [h, if_true]
      omega
    · simp [h]

theorem takeLoop_rem_blocked (t : Int) (qs : List Queuer) (q : Queuer)
    (h : (takeLoop t qs).2.2.head? = some q) : (takeLoop t qs).1 < q.count := by
  induction qs generalizing t with
  | nil => simp [takeLoop] at h
  | cons p rest ih =>
    simp only [takeLoop] at h ⊢
    by_cases hp : p.count ≤ t
    · simp only [hp, if_true] at h ⊢
      exact ih (t - p.count) h
    · simp only [hp, if_false] at h ⊢
      obtain rfl : p = q := by simpa using h
      exact not_le.mp hp

theorem takeLoop_blocked (t : Int) (qs : List Queuer)
    (h : ∀ q, qs.head? = some q → t < q.count) : takeLoop t qs = (t, [], qs) := by
  cases qs with
  | nil => simp [takeLoop]
  | cons q rest =>
    have hq : t < q.count := h q rfl
    simp [takeLoop, not_le.mpr hq]

/-!
## Characterizations of the bucket operations
-/

theorem removeTokens_tokens (b : Bucket) (q : Queuer) :
    (b.removeTokens q).1.tokens = (takeLoop b.tokens (b.queue ++ [q])).1 := by
  simp only [Bucket.removeTokens, Bucket.take]
  split <;> rfl

theorem removeTokens_queue (b : Bucket) (q : Queuer) :
    (b.removeTokens q).1.queue = (takeLoop b.tokens (b.queue ++ [q])).2.2 := by
  simp only [Bucket.removeTokens, Bucket.take]
  split <;> rfl

theorem removeTokens_resolved (b : Bucket) (q : Queuer) :
    (b.removeTokens q).2.resolved = (takeLoop b.tokens (b.queue ++ [q])).2.1 := rfl

theorem removeTokens_rejected (b : Bucket) (q : Queuer) :
    (b.removeTokens q).2.rejected = decide (b.maxTokens < q.count) := rfl

theorem removeTokens_timer (b : Bucket) (q : Queuer) :
    (b.removeTokens q).1.timerActive =
      (b.timerActive ||
        decide ((takeLoop b.tokens (b.queue ++ [q])).1 < b.maxTokens)) := by
  simp only [Bucket.removeTokens, Bucket.take]
  split
  next h => simp [h.1, h.2]
  next h =>
    rcases Bool.eq_false_or_eq_true b.timerActive with hb | hb
    · simp [hb]
    · have hn : ¬ (takeLoop b.tokens (b.queue ++ [q])).1 < b.maxTokens :=
        fun hc => h ⟨hb, hc⟩
      simp [hb, hn]

theorem tick_tokens (b : Bucket) :
    (b.tick).1.tokens =
      (takeLoop (min (b.tokens + b.tokensPerInterval) b.maxTokens) b.queue).1 := by
  simp only [Bucket.tick, Bucket.tickRefill, Bucket.take]
  split <;> rfl

theorem tick_queue (b : Bucket) :
    (b.tick).1.queue =
      (takeLoop (min (b.tokens + b.tokensPerInterval) b.maxTokens) b.queue).2.2 := by
  simp only [Bucket.tick, Bucket.tickRefill, Bucket.take]
  split <;> rfl

theorem tick_resolved (b : Bucket) :
    (b.tick).2 =
      (takeLoop (min (b.tokens + b.tokensPerInterval) b.maxTokens) b.queue).2.1 := rfl

theorem removeTokens_frame (b : Bucket) (q : Queuer) :
    (b.removeTokens q).1.interval = b.interval ∧
    (b.removeTokens q).1.tokensPerInterval = b.tokensPerInterval ∧
    (b.removeTokens q).1.maxTokens = b.maxTokens := by
  simp only [Bucket.removeTokens, Bucket.take]
  split <;> exact ⟨rfl, rfl, rfl⟩

theorem tick_frame (b : Bucket) :
    (b.tick).1.interval = b.interval ∧
    (b.tick).1.tokensPerInterval = b.tokensPerInterval ∧
    (b.tick).1.maxTokens = b.maxTokens := by
  simp only [Bucket.tick, Bucket.tickRefill, Bucket.take]
  split <;> exact ⟨rfl, rfl, rfl⟩

theorem tick_timer (b : Bucket) :
    (b.tick).1.timerActive =
      (if (takeLoop (min (b.tokens + b.tokensPerInterval) b.maxTokens) b.queue).1
            = b.maxTokens ∧
          (takeLoop (min (b.tokens + b.tokensPerInterval) b.maxTokens) b.queue).2.2
            = []
       then false else b.timerActive) := by
  simp only [Bucket.tick, Bucket.tickRefill, Bucket.take]
  split
  next h => simp_all
  next h => simp_all

/-!
## Step- and trace-level lemmas
-/

theorem run_nil (b : Bucket) : b.run [] = b := rfl

theorem run_cons (b : Bucket) (op : Op) (ops : List Op) :
    b.run (op :: ops) = ((b.stepLog op).1).run ops := rfl

theorem stepLog_frame (b : Bucket) (op : Op) :
    (b.stepLog op).1.interval = b.interval ∧
    (b.stepLog op).1.tokensPerInterval = b.tokensPerInterval ∧
    (b.stepLog op).1.maxTokens = b.maxTokens := by
  cases op with
  | request q => exact removeTokens_frame b q
  | tickOp =>
    simp only [Bucket.stepLog]
    split
    · exact tick_frame b
    · exact ⟨rfl, rfl, rfl⟩

theorem run_frame (b : Bucket) (ops : List Op) :
    (b.run ops).interval = b.interval ∧
    (b.run ops).tokensPerInterval = b.tokensPerInterval ∧
    (b.run ops).maxTokens = b.maxTokens := by
  induction ops generalizing b with
  | nil => exact ⟨rfl, rfl, rfl⟩
  | cons op ops ih =>
    have h1 := stepLog_frame b op
    have h2 := ih (b.stepLog op).1
    rw [run_cons]
    exact ⟨h2.1.trans h1.1, h2.2.1.trans h1.2.1, h2.2.2.trans h1.2.2⟩

theorem requestsOf_cons (op : Op) (ops : List Op) :
    requestsOf (op :: ops) =
      (match op with | .request q => [q] | .tickOp => []) ++ requestsOf ops := by
  cases op <;> simp [requestsOf]

theorem stepLog_queue (b : Bucket) (op : Op) :
    (b.stepLog op).2 ++ (b.stepLog op).1.queue =
      b.queue ++ (match op with | .request q => [q] | .tickOp => []) := by
  cases op with
  | request q =>
    show (b.removeTokens q).2.resolved ++ (b.removeTokens q).1.queue = _
    rw [removeTokens_resolved, removeTokens_queue]
    exact takeLoop_partition b.tokens (b.queue ++ [q])
  | tickOp =>
    simp only [Bucket.stepLog]
    split
    · show (b.tick).2 ++ (b.tick).1.queue = b.queue ++ []
      rw [tick_resolved, tick_queue, List.append_nil]
      exact takeLoop_partition _ b.queue
    · simp

theorem runLog_queue (b : Bucket) (ops : List Op) :
    (Bucket.runLog b ops).2 ++ (Bucket.runLog b ops).1.queue =
      b.queue ++ requestsOf ops := by
  induction ops generalizing b with
  | nil => simp [Bucket.runLog, requestsOf]
  | cons op ops ih =>
    show ((b.stepLog op).2 ++ (Bucket.runLog (b.stepLog op).1 ops).2) ++
        (Bucket.runLog (b.stepLog op).1 ops).1.queue = _
    rw [List.append_assoc, ih, ← List.append_assoc, stepLog_queue,
      requestsOf_cons, List.append_assoc]

theorem countSum_append (l1 l2 : List Queuer) :
    countSum (l1 ++ l2) = countSum l1 + countSum l2 := by
  simp [countSum]

theorem stepLog_tokens (b : Bucket) (op : Op) :
    (b.stepLog op).1.tokens =
      b.tokens + refillOf b op - countSum (b.stepLog op).2 := by
  cases op with
  | request q =>
    show (b.removeTokens q).1.tokens = _
    rw [removeTokens_tokens, takeLoop_tokens]
    show _ = b.tokens + refillOf b (.request q)
      - countSum (b.removeTokens q).2.resolved
    rw [removeTokens_resolved, refillOf]
    ring
  | tickOp =>
    simp only [Bucket.stepLog]
    split
    next h =>
      show (b.tick).1.tokens = _
      rw [tick_tokens, takeLoop_tokens]
      show _ = b.tokens + refillOf b .tickOp - countSum (b.tick).2
      rw [tick_resolved, refillOf]
      simp only [h, if_true]
      ring
    next h =>
      simp [refillOf, h, countSum]

theorem runLog_tokens (b : Bucket) (ops : List Op) :
    (Bucket.runLog b ops).1.tokens =
      b.tokens + refillTotal b ops - countSum (Bucket.runLog b ops).2 := by
  induction ops generalizing b with
  | nil => simp [Bucket.runLog, refillTotal, countSum]
  | cons op ops ih =>
    show (Bucket.runLog (b.stepLog op).1 ops).1.tokens =
      b.tokens + refillTotal b (op :: ops) -
        countSum ((b.stepLog op).2 ++ (Bucket.runLog (b.stepLog op).1 ops).2)
    rw [countSum_append, ih]
    have h1 := stepLog_tokens b op
    show _ + refillTotal (b.stepLog op).1 ops - _ =
      b.tokens + (refillOf b op + refillTotal (b.stepLog op).1 ops) - _
    omega

/-!
## Invariants: token level bounds and timer discipline
-/

theorem construct_InvT (o : BucketOptions)
    (h : (Bucket.construct o).tokens ≤ (Bucket.construct o).maxTokens) :
    InvT (Bucket.construct o) := by
  refine ⟨h, ?_, ?_, ?_, ?_, ?_⟩ <;> simp [Bucket.construct]

theorem construct_InvFull (o : BucketOptions)
    (h : (Bucket.construct o).tokens = (Bucket.construct o).maxTokens) :
    InvFull (Bucket.construct o) := by
  refine ⟨construct_InvT o (le_of_eq h), ?_⟩
  intro hc
  rcases hc with hc | hc
  · omega
  · simp [Bucket.construct] at hc

theorem removeTokens_InvT (b : Bucket) (q : Queuer) (hb : InvT b)
    (hq0 : 0 ≤ q.count) (hqm : q.count ≤ b.maxTokens) :
    InvT (b.removeTokens q).1 ∧
    ((b.removeTokens q).1.tokens < (b.removeTokens q).1.maxTokens ∨
        (b.removeTokens q).1.queue ≠ [] →
      (b.removeTokens q).1.timerActive = true) := by
  obtain ⟨h1, h2, h3, h4, h5, h6⟩ := hb
  have hmax := (removeTokens_frame b q).2.2
  have htok := removeTokens_tokens b q
  have hque := removeTokens_queue b q
  have htim := removeTokens_timer b q
  have hcosts : ∀ r ∈ b.queue ++ [q], 0 ≤ r.count ∧ r.count ≤ b.maxTokens := by
    intro r hr
    rcases List.mem_append.mp hr with h | h
    · exact h2 r h
    · simp only [List.mem_singleton] at h
      subst h
      exact ⟨hq0, hqm⟩
  have hle : (takeLoop b.tokens (b.queue ++ [q])).1 ≤ b.tokens :=
    takeLoop_tokens_le _ _ (fun r hr => (hcosts r hr).1)
  have h1' : (takeLoop b.tokens (b.queue ++ [q])).1 ≤ b.maxTokens :=
    le_trans hle h1
  have hqc : ∀ r ∈ (takeLoop b.tokens (b.queue ++ [q])).2.2,
      0 ≤ r.count ∧ r.count ≤ b.maxTokens :=
    fun r hr => hcosts r (takeLoop_rem_mem _ _ r hr)
  have hq6 : (takeLoop b.tokens (b.queue ++ [q])).2.2 ≠ [] →
      (takeLoop b.tokens (b.queue ++ [q])).1 < b.maxTokens := by
    intro hne
    obtain ⟨r, rest, hr⟩ := List.exists_cons_of_ne_nil hne
    have hh : (takeLoop b.tokens (b.queue ++ [q])).2.2.head? = some r := by
      rw [hr]; rfl
    have hblock := takeLoop_rem_blocked b.tokens (b.queue ++ [q]) r hh
    have hrmem : r ∈ (takeLoop b.tokens (b.queue ++ [q])).2.2 := by
      rw [hr]; exact List.mem_cons_self _ _
    have := (hqc r hrmem).2
    omega
  have hextra : (takeLoop b.tokens (b.queue ++ [q])).1 < b.maxTokens ∨
      (takeLoop b.tokens (b.queue ++ [q])).2.2 ≠ [] →
      (b.removeTokens q).1.timerActive = true := by
    intro hc
    have hlt : (takeLoop b.tokens (b.queue ++ [q])).1 < b.maxTokens := by
      rcases hc with hc | hc
      · exact hc
      · exact hq6 hc
    rw [htim]
    simp [hlt]
  refine ⟨⟨?_, ?_, ?_, ?_, ?_, ?_⟩, ?_⟩
  · rw [htok, hmax]
    exact h1'
  · rw [hque, hmax]
    exact hqc
  · rw [hque, htok]
    exact fun r hr => takeLoop_rem_blocked b.tokens (b.queue ++ [q]) r hr
  · rw [hque]
    exact hextra ∘ Or.inr
  · intro ht
    rw [htok, hque, hmax]
    by_cases hlt : (takeLoop b.tokens (b.queue ++ [q])).1 < b.maxTokens
    · exact Or.inl hlt
    · right
      rw [htim, decide_eq_false hlt, Bool.or_false] at ht
      rcases h5 ht with hc | hc
      · omega
      · obtain ⟨r, rest, hr⟩ := List.exists_cons_of_ne_nil hc
        have hblocked : ∀ p, (b.queue ++ [q]).head? = some p →
            b.tokens < p.count := by
          intro p hp
          rw [hr] at hp
          simp only [List.cons_append, List.head?_cons, Option.some.injEq] at hp
          subst hp
          exact h3 r (by rw [hr]; rfl)
        have hnoop := takeLoop_blocked b.tokens (b.queue ++ [q]) hblocked
        rw [hnoop, hr]
        simp
  · rw [htok, hmax, hque]
    intro hne
    exact hq6 hne
  · rw [htok, hmax, hque]
    exact hextra

theorem takeLoop_rem_lt_max (t m : Int) (qs : List Queuer)
    (hc : ∀ r ∈ qs, r.count ≤ m) (hne : (takeLoop t qs).2.2 ≠ []) :
    (takeLoop t qs).1 < m := by
  obtain ⟨r, rest, hr⟩ := List.exists_cons_of_ne_nil hne
  have hh : (takeLoop t qs).2.2.head? = some r := by rw [hr]; rfl
  have hblock := takeLoop_rem_blocked t qs r hh
  have hrmem : r ∈ (takeLoop t qs).2.2 := by
    rw [hr]; exact List.mem_cons_self _ _
  have := hc r (takeLoop_rem_mem t qs r hrmem)
  omega

theorem tick_InvT (b : Bucket) (hb : InvT b) (ht : b.timerActive = true) :
    InvT (b.tick).1 ∧
    ((b.tick).1.tokens < (b.tick).1.maxTokens ∨ (b.tick).1.queue ≠ [] →
      (b.tick).1.timerActive = true) := by
  obtain ⟨h1, h2, h3, h4, h5, h6⟩ := hb
  have hmax := (tick_frame b).2.2
  have htok := tick_tokens b
  have hque := tick_queue b
  have htim := tick_timer b
  have hM : min (b.tokens + b.tokensPerInterval) b.maxTokens ≤ b.maxTokens :=
    min_le_right _ _
  have hle : (takeLoop (min (b.tokens + b.tokensPerInterval) b.maxTokens)
      b.queue).1 ≤ min (b.tokens + b.tokensPerInterval) b.maxTokens :=
    takeLoop_tokens_le _ _ (fun r hr => (h2 r hr).1)
  have h1' : (takeLoop (min (b.tokens + b.tokensPerInterval) b.maxTokens)
      b.queue).1 ≤ b.maxTokens := le_trans hle hM
  have hq6 : (takeLoop (min (b.tokens + b.tokensPerInterval) b.maxTokens)
        b.queue).2.2 ≠ [] →
      (takeLoop (min (b.tokens + b.tokensPerInterval) b.maxTokens)
        b.queue).1 < b.maxTokens :=
    takeLoop_rem_lt_max _ _ _ (fun r hr => (h2 r hr).2)
  have hcond : (takeLoop (min (b.tokens + b.tokensPerInterval) b.maxTokens)
        b.queue).1 < b.maxTokens ∨
      (takeLoop (min (b.tokens + b.tokensPerInterval) b.maxTokens)
        b.queue).2.2 ≠ [] →
      (b.tick).1.timerActive = true := by
    intro hc
    rw [htim]
    have hnc : ¬ ((takeLoop (min (b.tokens + b.tokensPerInterval) b.maxTokens)
          b.queue).1 = b.maxTokens ∧
        (takeLoop (min (b.tokens + b.tokensPerInterval) b.maxTokens)
          b.queue).2.2 = []) := by
      rcases hc with hc | hc
      · intro hand
        omega
      · intro hand
        exact hc hand.2
    simp [hnc, ht]
  refine ⟨⟨?_, ?_, ?_, ?_, ?_, ?_⟩, ?_⟩
  · rw [htok, hmax]
    exact h1'
  · rw [hque, hmax]
    exact fun r hr => h2 r (takeLoop_rem_mem _ _ r hr)
  · rw [hque, htok]
    exact fun r hr => takeLoop_rem_blocked _ _ r hr
  · rw [hque]
    exact hcond ∘ Or.inr
  · intro htt
    rw [htok, hque, hmax]
    rw [htim] at htt
    by_cases hand : (takeLoop (min (b.tokens + b.tokensPerInterval)
          b.maxTokens) b.queue).1 = b.maxTokens ∧
        (takeLoop (min (b.tokens + b.tokensPerInterval) b.maxTokens)
          b.queue).2.2 = []
    · simp [hand] at htt
    · rcases not_and_or.mp hand with hc | hc
      · left
        omega
      · right
        exact hc
  · rw [htok, hmax, hque]
    intro hne
    exact hq6 hne
  · rw [htok, hmax, hque]
    exact hcond

theorem stepLog_InvT (b : Bucket) (op : Op) (hb : InvT b)
    (hop : opOK b.maxTokens op) : InvT (b.stepLog op).1 := by
  cases op with
  | request q => exact (removeTokens_InvT b q hb hop.1 hop.2).1
  | tickOp =>
    simp only [Bucket.stepLog]
    split
    next h => exact (tick_InvT b hb h).1
    next h => exact hb

theorem stepLog_InvFull (b : Bucket) (op : Op) (hb : InvFull b)
    (hop : opOK b.maxTokens op) : InvFull (b.stepLog op).1 := by
  cases op with
  | request q =>
    exact ⟨(removeTokens_InvT b q hb.1 hop.1 hop.2).1,
      (removeTokens_InvT b q hb.1 hop.1 hop.2).2⟩
  | tickOp =>
    simp only [Bucket.stepLog]
    split
    next h => exact ⟨(tick_InvT b hb.1 h).1, (tick_InvT b hb.1 h).2⟩
    next h => exact hb

theorem stepLog_request_InvFull (b : Bucket) (q : Queuer) (hb : InvT b)
    (h0 : 0 ≤ q.count) (hm : q.count ≤ b.maxTokens) :
    InvFull (b.stepLog (.request q)).1 :=
  ⟨(removeTokens_InvT b q hb h0 hm).1, (removeTokens_InvT b q hb h0 hm).2⟩

theorem run_InvT (b : Bucket) (ops : List Op) (hb : InvT b)
    (hops : ∀ op ∈ ops, opOK b.maxTokens op) : InvT (b.run ops) := by
  induction ops generalizing b with
  | nil => exact hb
  | cons op ops ih =>
    rw [run_cons]
    have hstep := stepLog_InvT b op hb (hops op (List.mem_cons_self _ _))
    have hmax := (stepLog_frame b op).2.2
    exact ih (b.stepLog op).1 hstep
      (fun p hp => hmax ▸ hops p (List.mem_cons_of_mem op hp))

theorem run_InvFull (b : Bucket) (ops : List Op) (hb : InvFull b)
    (hops : ∀ op ∈ ops, opOK b.maxTokens op) : InvFull (b.run ops) := by
  induction ops generalizing b with
  | nil => exact hb
  | cons op ops ih =>
    rw [run_cons]
    have hstep := stepLog_InvFull b op hb (hops op (List.mem_cons_self _ _))
    have hmax := (stepLog_frame b op).2.2
    exact ih (b.stepLog op).1 hstep
      (fun p hp => hmax ▸ hops p (List.mem_cons_of_mem op hp))

theorem run_append (b : Bucket) (l1 l2 : List Op) :
    b.run (l1 ++ l2) = (b.run l1).run l2 := by
  induction l1 generalizing b with
  | nil => rfl
  | cons op l1 ih =>
    rw [List.cons_append, run_cons, run_cons]
    exact ih (b.stepLog op).1

theorem run_request_InvFull (b : Bucket) (l1 : List Op) (q : Queuer)
    (l2 : List Op) (hb : InvT b)
    (hops : ∀ op ∈ l1 ++ .request q :: l2, opOK b.maxTokens op) :
    InvFull (b.run (l1 ++ .request q :: l2)) := by
  rw [run_append, run_cons]
  have hb1 : InvT (b.run l1) :=
    run_InvT b l1 hb (fun p hp => hops p (List.mem_append_left _ hp))
  have hmax1 : (b.run l1).maxTokens = b.maxTokens := (run_frame b l1).2.2
  have hq : opOK b.maxTokens (.request q) :=
    hops _ (List.mem_append_right _ (List.mem_cons_self _ _))
  have hfull : InvFull ((b.run l1).stepLog (.request q)).1 :=
    stepLog_request_InvFull (b.run l1) q hb1 hq.1 (hmax1 ▸ hq.2)
  have hmax2 : ((b.run l1).stepLog (.request q)).1.maxTokens = b.maxTokens :=
    (stepLog_frame (b.run l1) (.request q)).2.2.trans hmax1
  exact run_InvFull _ l2 hfull
    (fun p hp => hmax2 ▸ hops p
      (List.mem_append_right _ (List.mem_cons_of_mem _ hp)))

theorem stepLog_LevelInv (b : Bucket) (op : Op) (h : LevelInv b)
    (htpi : 0 ≤ b.tokensPerInterval) (hop : opNN op) :
    LevelInv (b.stepLog op).1 := by
  obtain ⟨h0, h1, h2⟩ := h
  cases op with
  | request q =>
    have hcosts : ∀ r ∈ b.queue ++ [q], 0 ≤ r.count := by
      intro r hr
      rcases List.mem_append.mp hr with hm | hm
      · exact h2 r hm
      · simp only [List.mem_singleton] at hm
        subst hm
        exact hop
    have hnn := takeLoop_nonneg b.tokens (b.queue ++ [q]) h0 hcosts
    show LevelInv (b.removeTokens q).1
    refine ⟨?_, ?_, ?_⟩
    · rw [removeTokens_tokens]
      exact hnn.1
    · rw [removeTokens_tokens, (removeTokens_frame b q).2.2]
      exact le_trans hnn.2 h1
    · rw [removeTokens_queue]
      exact fun r hr => hcosts r (takeLoop_rem_mem _ _ r hr)
  | tickOp =>
    simp only [Bucket.stepLog]
    split
    next ht =>
      have hmax0 : (0 : Int) ≤ b.maxTokens := le_trans h0 h1
      have hM0 : 0 ≤ min (b.tokens + b.tokensPerInterval) b.maxTokens :=
        le_min (by omega) hmax0
      have hnn := takeLoop_nonneg _ b.queue hM0 h2
      refine ⟨?_, ?_, ?_⟩
      · rw [tick_tokens]
        exact hnn.1
      · rw [tick_tokens, (tick_frame b).2.2]
        exact le_trans hnn.2 (min_le_right _ _)
      · rw [tick_queue]
        exact fun r hr => h2 r (takeLoop_rem_mem _ _ r hr)
    next ht => exact ⟨h0, h1, h2⟩

theorem run_LevelInv (b : Bucket) (ops : List Op) (h : LevelInv b)
    (htpi : 0 ≤ b.tokensPerInterval) (hops : ∀ op ∈ ops, opNN op) :
    LevelInv (b.run ops) := by
  induction ops generalizing b with
  | nil => exact h
  | cons op ops ih =>
    rw [run_cons]
    have hstep := stepLog_LevelInv b op h htpi (hops op (List.mem_cons_self _ _))
    have htpi1 : 0 ≤ (b.stepLog op).1.tokensPerInterval :=
      (stepLog_frame b op).2.1 ▸ htpi
    exact ih (b.stepLog op).1 hstep htpi1
      (fun p hp => hops p (List.mem_cons_of_mem op hp))

/-!
## Map lemmas for the throttler registry
-/

theorem mfind_filter_self (m : List (String × SanThrottle × Nat)) (h : String) :
    mfind (m.filter fun e => e.1 ≠ h) h = none := by
  have : (m.filter fun e => e.1 ≠ h).find? (fun e => e.1 = h) = none := by
    rw [List.find?_eq_none]
    intro x hx
    have hne : x.1 ≠ h := by
      have := (List.mem_filter.mp hx).2
      simpa using this
    simpa using hne
  simp [mfind, this]

theorem mfind_mapSet_self (m : List (String × SanThrottle × Nat)) (k : String)
    (v : SanThrottle × Nat) : mfind (mapSet m k v) k = some v := by
  simp [mfind, mapSet, List.find?_cons]

theorem find?_filter_keyne (m : List (String × SanThrottle × Nat))
    (k h : String) (hne : h ≠ k) :
    (m.filter fun e => e.1 ≠ k).find? (fun e => e.1 = h) =
      m.find? (fun e => e.1 = h) := by
  rw [List.find?_filter]
  congr 1
  funext a
  by_cases ha : a.1 = h
  · have hak : a.1 ≠ k := by
      rw [ha]
      exact hne
    simp [ha, hak, hne]
  · simp [ha]

theorem mfind_mapSet_ne (m : List (String × SanThrottle × Nat)) (k h : String)
    (v : SanThrottle × Nat) (hne : h ≠ k) :
    mfind (mapSet m k v) h = mfind m h := by
  have hkh : ¬ ((k, v).1 = h) := fun hh => hne hh.symm
  simp only [mfind, mapSet, List.find?_cons, hkh]
  rw [find?_filter_keyne m k h hne]
  simp [hkh]

theorem mfind_setAll_notmem (m : List (String × SanThrottle × Nat))
    (hs : List String) (v : SanThrottle × Nat) (h : String) (hh : h ∉ hs) :
    mfind (setAll m hs v) h = mfind m h := by
  induction hs generalizing m with
  | nil => rfl
  | cons k rest ih =>
    have hk : h ≠ k := fun he => hh (he ▸ List.mem_cons_self k rest)
    have hr : h ∉ rest := fun he => hh (List.mem_cons_of_mem k he)
    rw [setAll, ih (mapSet m k v) hr, mfind_mapSet_ne m k h v hk]

theorem mfind_setAll_mem (m : List (String × SanThrottle × Nat))
    (hs : List String) (v : SanThrottle × Nat) (h : String) (hh : h ∈ hs) :
    mfind (setAll m hs v) h = some v := by
  induction hs generalizing m with
  | nil => cases hh
  | cons k rest ih =>
    by_cases hr : h ∈ rest
    · rw [setAll]
      exact ih (mapSet m k v) hr
    · have hk : h = k := by
        rcases List.mem_cons.mp hh with he | he
        · exact he
        · exact absurd he hr
      subst hk
      rw [setAll, mfind_setAll_notmem (mapSet m h v) rest v h hr,
        mfind_mapSet_self]

theorem removeHostnames_heap (s : ThrottlerState) (hs : List String) :
    (removeHostnames s hs).heap = s.heap ∧
    (removeHostnames s hs).nextRef = s.nextRef := by
  induction hs generalizing s with
  | nil => exact ⟨rfl, rfl⟩
  | cons h rest ih =>
    rw [removeHostnames]
    exact ih (removeThrottle s h)

theorem sanitize_fields (t : Throttle) (st : SanThrottle)
    (h : sanitizeThrottle t = .ok st) :
    st.hostname = t.hostname ∧
    st.maxTokens = t.maxTokens.getD t.tokensPerInterval ∧
    st.tokensPerInterval = t.tokensPerInterval := by
  unfold sanitizeThrottle at h
  cases hsi : sanitizeInterval t.interval with
  | error e =>
    rw [hsi] at h
    cases h
  | ok ms =>
    rw [hsi] at h
    have := Except.ok.inj h
    rw [← this]
    exact ⟨rfl, rfl, rfl⟩

theorem heapLookup_addThrottle (s : ThrottlerState) (st : SanThrottle) :
    heapLookup (addThrottle s st) s.nextRef = some (freshBucket st) := by
  simp [heapLookup, addThrottle, List.find?_cons]

theorem lookupTh_addThrottle_mem (s : ThrottlerState) (st : SanThrottle)
    (h : String) (hh : h ∈ st.hostname) :
    lookupTh (addThrottle s st) h = some (st, s.nextRef) := by
  show mfind (setAll s.map st.hostname (st, s.nextRef)) h = _
  exact mfind_setAll_mem _ _ _ _ hh

/-!
## Claim theorems
-/

/-- C1: the claim states that `removeTokens(cost)` with `cost > capacity`
fails synchronously before queuing and mutates neither level nor queue.  The
code does reject the promise synchronously, but it has no early return: the
doomed entry is still pushed onto the queue (mutating it), where it can never
be drained and permanently blocks every later request (here a subsequent
satisfiable cost-1 request resolves nothing); and when the level exceeds the
capacity (initialTokens above maxTokens) the entry is even drained, mutating
the level (from 5 to 1). -/
theorem claim_C1_reject_still_queues :
    ((Bucket.construct ⟨some 1, none, none, none⟩).removeTokens
        ⟨2, 0⟩).2.rejected = true ∧
    ((Bucket.construct ⟨some 1, none, none, none⟩).removeTokens
        ⟨2, 0⟩).1.queue = [⟨2, 0⟩] ∧
    (((Bucket.construct ⟨some 1, none, none, none⟩).run
        [.request ⟨2, 0⟩]).removeTokens ⟨1, 1⟩).2.resolved = [] ∧
    ((Bucket.construct ⟨some 5, none, none, some 3⟩).removeTokens
        ⟨4, 0⟩).2.rejected = true ∧
    ((Bucket.construct ⟨some 5, none, none, some 3⟩).removeTokens
        ⟨4, 0⟩).1.tokens = 1 := by decide

/-- C2 counterexample: a freshly constructed bucket with level 0 below
capacity 2 (reachable — it is the initial state) has no active timer, so
"timer active iff level < capacity or queue non-empty" fails as stated. -/
theorem claim_C2_counterexample :
    ¬ ((Bucket.construct ⟨some 0, none, none, some 2⟩).timerActive = true ↔
      ((Bucket.construct ⟨some 0, none, none, some 2⟩).tokens <
          (Bucket.construct ⟨some 0, none, none, some 2⟩).maxTokens ∨
        (Bucket.construct ⟨some 0, none, none, some 2⟩).queue ≠ [])) := by
  decide

/-- C2 (amended): for every state reachable from a constructed bucket with
`initialTokens ≤ maxTokens` by `removeTokens` calls with cost in
`[0, capacity]` and timer firings: (1) an active timer always implies
`level < capacity` or a non-empty queue; (2) when the bucket starts at full
capacity (as the throttler always constructs them), the timer is active iff
`level < capacity` or the queue is non-empty — in particular it is torn down
as soon as the bucket is full with an empty queue; (3) the same iff holds on
any trace containing at least one `removeTokens` call.  A bucket constructed
strictly below capacity has no timer until its first `removeTokens` call. -/
theorem claim_C2_timer_iff (o : BucketOptions) (b0 : Bucket) (ops : List Op)
    (hb0 : b0 = Bucket.construct o) (hinit : b0.tokens ≤ b0.maxTokens)
    (hops : ∀ op ∈ ops, opOK b0.maxTokens op) :
    ((b0.run ops).timerActive = true →
      (b0.run ops).tokens < (b0.run ops).maxTokens ∨
        (b0.run ops).queue ≠ []) ∧
    (b0.tokens = b0.maxTokens →
      ((b0.run ops).timerActive = true ↔
        (b0.run ops).tokens < (b0.run ops).maxTokens ∨
          (b0.run ops).queue ≠ [])) ∧
    (∀ (l1 : List Op) (q : Queuer) (l2 : List Op),
      ops = l1 ++ Op.request q :: l2 →
      ((b0.run ops).timerActive = true ↔
        (b0.run ops).tokens < (b0.run ops).maxTokens ∨
          (b0.run ops).queue ≠ [])) := by
  subst hb0
  have hIT := construct_InvT o hinit
  refine ⟨?_, ?_, ?_⟩
  · exact (run_InvT _ ops hIT hops).2.2.2.2.1
  · intro heq
    have hrun := run_InvFull _ ops (construct_InvFull o heq) hops
    exact ⟨hrun.1.2.2.2.2.1, hrun.2⟩
  · intro l1 q l2 hsplit
    subst hsplit
    have hrun := run_request_InvFull _ l1 q l2 hIT hops
    exact ⟨hrun.1.2.2.2.2.1, hrun.2⟩

/-- C2 witness: a full capacity-2 bucket, after one cost-1 admission, has an
active timer, as forced by the iff of the theorem. -/
theorem claim_C2_timer_iff_witness :
    ((Bucket.construct ⟨some 2, none, none, none⟩).run
      [Op.request ⟨1, 0⟩]).timerActive = true :=
  ((claim_C2_timer_iff ⟨some 2, none, none, none⟩ _ [Op.request ⟨1, 0⟩] rfl
      (by decide) (by decide)).2.1 (by decide)).mpr (by decide)

/-- C3: the drain scans from the front and resolves a prefix — resolved
entries followed by the remaining queue reconstruct the original queue, the
level is debited by exactly the resolved costs, and the scan stops at the
first entry it cannot satisfy; over any trace, the resolutions followed by
the final queue equal the initial queue plus the submitted requests in
submission order, and the resolution log is literally a prefix of that
arrival order (strict FIFO, never reordered or skipped). -/
theorem claim_C3_fifo_drain :
    (∀ (t : Int) (qs : List Queuer),
      (takeLoop t qs).2.1 ++ (takeLoop t qs).2.2 = qs ∧
      (takeLoop t qs).1 = t - countSum (takeLoop t qs).2.1 ∧
      ((takeLoop t qs).2.2 = [] ∨
        (takeLoop t qs).1 < ((takeLoop t qs).2.2.headI).count)) ∧
    (∀ (b : Bucket) (ops : List Op),
      (Bucket.runLog b ops).2 ++ (Bucket.runLog b ops).1.queue =
        b.queue ++ requestsOf ops) ∧
    (∀ (b : Bucket) (ops : List Op),
      (Bucket.runLog b ops).2 =
        (b.queue ++ requestsOf ops).take (Bucket.runLog b ops).2.length) := by
  refine ⟨fun t qs => ⟨takeLoop_partition t qs, takeLoop_tokens t qs,
    takeLoop_stop t qs⟩, runLog_queue, fun b ops => ?_⟩
  conv_lhs => rw [← List.take_left (Bucket.runLog b ops).2
    (Bucket.runLog b ops).1.queue]
  rw [runLog_queue]

/-- C4: the replenishment tick first sets
`level = min(level + refillAmount, capacity)` and then drains; over any trace
the final level equals the initial level plus the per-tick effective
(capacity-clamped) refills minus the costs of all completed entries —
conservation with clamping applied at each refill step. -/
theorem claim_C4_conservation :
    (∀ b : Bucket, (Bucket.tickRefill b).tokens =
      min (b.tokens + b.tokensPerInterval) b.maxTokens) ∧
    (∀ b : Bucket, (b.tick).1.tokens =
      (takeLoop (Bucket.tickRefill b).tokens b.queue).1) ∧
    (∀ (b : Bucket) (ops : List Op),
      (Bucket.runLog b ops).1.tokens =
        b.tokens + refillTotal b ops - countSum (Bucket.runLog b ops).2) :=
  ⟨fun _ => rfl, fun b => tick_tokens b, runLog_tokens⟩

/-- C5: the claim states that `FetchThrottler.fetch` consults the policy's
`shouldThrottle` predicate and bypasses admission when it returns false.  In
the code the predicate (default: the GET/POST/PUT/DELETE/PATCH allow-list) is
installed by `#addThrottle` but never read by `fetch`: for a configured
hostname the call always awaits `bucket.removeTokens(throttleTokens ?? 1)`,
debiting the bucket, even when the configured predicate rejects every request
and even for a method (HEAD) outside the default allow-list. -/
theorem claim_C5_predicate_never_consulted :
    sanitizeThrottle tC5 = .ok stC5 ∧
    stC5.shouldThrottle "GET" = false ∧
    fetchAction (addThrottle emptyThrottler stC5) "api.example.com" none =
      .throttled 0 1 ∧
    sanitizeThrottle tC5d = .ok stC5d ∧
    stC5d.shouldThrottle "HEAD" = false ∧
    fetchAction (addThrottle emptyThrottler stC5d) "h.example.com" none =
      .throttled 0 1 ∧
    heapLookup (addThrottle emptyThrottler stC5) 0 = some (freshBucket stC5) ∧
    ((freshBucket stC5).removeTokens ⟨1, 0⟩).1.tokens = 1 :=
  ⟨rfl, rfl, rfl, rfl, rfl, rfl, rfl, rfl⟩

/-- C6 counterexample: removing the last (only) hostname of a throttle whose
bucket has a running timer deletes the map entry but leaves the bucket object
— timer still active — untouched, and `clear()` likewise leaves every bucket
untouched; the claim says the timers are stopped. -/
theorem claim_C6_counterexample :
    bC6.timerActive = true ∧
    (removeThrottle sC6 "a.example.com").map = [] ∧
    heapLookup (removeThrottle sC6 "a.example.com") 0 = some bC6 ∧
    bC6.timerActive = true ∧
    (clearThrottler sC6).heap = sC6.heap :=
  ⟨by decide, rfl, rfl, by decide, rfl⟩

/-- C6 (amended): `remove` on a hostname deletes exactly that map entry (the
registry is a single hostname ↦ `{throttle, bucket}` map) and `clear()`
empties the map; neither operation touches any bucket object, so no
replenishment timer is stopped — timers die only through the bucket's own
full-and-idle tick teardown or garbage-collection finalization. -/
theorem claim_C6_remove_clear_no_timer_stop :
    (∀ (s : ThrottlerState) (h : String),
      (removeThrottle s h).heap = s.heap ∧
      (removeThrottle s h).nextRef = s.nextRef ∧
      lookupTh (removeThrottle s h) h = none) ∧
    (∀ s : ThrottlerState,
      (clearThrottler s).map = [] ∧ (clearThrottler s).heap = s.heap ∧
      (clearThrottler s).nextRef = s.nextRef) :=
  ⟨fun s h => ⟨rfl, rfl, mfind_filter_self s.map h⟩,
   fun s => ⟨rfl, rfl, rfl⟩⟩

/-- C7 counterexample: construction does not clamp — a bucket constructed
with `initialTokens 5` and `maxTokens 3` observably holds level 5 above its
capacity 3. -/
theorem claim_C7_counterexample :
    ¬ ((Bucket.construct ⟨some 5, none, none, some 3⟩).tokens ≤
      (Bucket.construct ⟨some 5, none, none, some 3⟩).maxTokens) := by decide

/-- C7 (amended): provided the bucket is constructed with
`0 ≤ initialTokens ≤ maxTokens`, `refillAmount ≥ 0`, and every requested cost
is non-negative, `0 ≤ level ≤ capacity` holds at every reachable state;
construction itself copies `initialTokens` verbatim without clamping. -/
theorem claim_C7_level_bounds (o : BucketOptions) (b0 : Bucket) (ops : List Op)
    (hb0 : b0 = Bucket.construct o) (h0 : 0 ≤ b0.tokens)
    (h1 : b0.tokens ≤ b0.maxTokens) (htpi : 0 ≤ b0.tokensPerInterval)
    (hops : ∀ op ∈ ops, opNN op) :
    0 ≤ (b0.run ops).tokens ∧
      (b0.run ops).tokens ≤ (b0.run ops).maxTokens := by
  have hlv : LevelInv b0 := by
    subst hb0
    exact ⟨h0, h1, by simp [Bucket.construct]⟩
  have hrun := run_LevelInv b0 ops hlv htpi hops
  exact ⟨hrun.1, hrun.2.1⟩

/-- C7 witness: a full capacity-2 bucket after a cost-1 admission and one
tick keeps its level within `[0, 2]`. -/
theorem claim_C7_level_bounds_witness :
    0 ≤ ((Bucket.construct ⟨some 2, none, none, none⟩).run
        [Op.request ⟨1, 0⟩, Op.tickOp]).tokens ∧
      ((Bucket.construct ⟨some 2, none, none, none⟩).run
          [Op.request ⟨1, 0⟩, Op.tickOp]).tokens ≤
        ((Bucket.construct ⟨some 2, none, none, none⟩).run
          [Op.request ⟨1, 0⟩, Op.tickOp]).maxTokens :=
  claim_C7_level_bounds ⟨some 2, none, none, none⟩ _
    [Op.request ⟨1, 0⟩, Op.tickOp] rfl (by decide) (by decide) (by decide)
    (by decide)

/-- C8 counterexample: a cost-0 `removeTokens` does not complete immediately
when the queue is blocked — on a capacity-2 bucket at level 0 with a pending
cost-2 entry, the cost-0 call resolves nothing in the call and queues behind
the blocked head. -/
theorem claim_C8_counterexample :
    (((Bucket.construct ⟨some 0, none, none, some 2⟩).run
        [.request ⟨2, 0⟩]).removeTokens ⟨0, 1⟩).2.resolved = [] ∧
    (((Bucket.construct ⟨some 0, none, none, some 2⟩).run
        [.request ⟨2, 0⟩]).removeTokens ⟨0, 1⟩).1.queue =
      [⟨2, 0⟩, ⟨0, 1⟩] := by decide

/-- C8 (amended): a cost-0 `removeTokens` on a bucket with an empty queue
(and non-negative level and capacity) is not rejected, completes within the
same call, and mutates neither the level nor (net) the queue; when earlier
entries are still queued it instead waits its FIFO turn. -/
theorem claim_C8_zero_cost (b : Bucket) (i : Nat) (hq : b.queue = [])
    (h0 : 0 ≤ b.tokens) (hm : 0 ≤ b.maxTokens) :
    (b.removeTokens ⟨0, i⟩).2.rejected = false ∧
    (b.removeTokens ⟨0, i⟩).2.resolved = [⟨0, i⟩] ∧
    (b.removeTokens ⟨0, i⟩).1.tokens = b.tokens ∧
    (b.removeTokens ⟨0, i⟩).1.queue = [] := by
  have hTL : takeLoop b.tokens ([] ++ [(⟨0, i⟩ : Queuer)]) =
      (b.tokens, [⟨0, i⟩], []) := by
    simp [takeLoop, h0]
  refine ⟨?_, ?_, ?_, ?_⟩
  · rw [removeTokens_rejected]
    simp [not_lt.mpr hm]
  · rw [removeTokens_resolved, hq, hTL]
  · rw [removeTokens_tokens, hq, hTL]
  · rw [removeTokens_queue, hq, hTL]

/-- C8 witness: on a default bucket (level 1, capacity 1, empty queue) a
cost-0 `removeTokens` resolves its own entry in the same call. -/
theorem claim_C8_zero_cost_witness :
    ((Bucket.construct ⟨none, none, none, none⟩).removeTokens
      ⟨0, 0⟩).2.resolved = [⟨0, 0⟩] :=
  (claim_C8_zero_cost (Bucket.construct ⟨none, none, none, none⟩) 0 rfl
    (by decide) (by decide)).2.1

/-- C9: `add` on a throttle covering an already-throttled hostname first
removes the hostnames and then installs a freshly constructed bucket: after
the call the hostname maps to the new sanitized throttle and a bucket whose
level equals the (sanitized) `maxTokens`, with an empty queue and no timer —
no level or pending requests carry over from the replaced throttle. -/
theorem claim_C9_fresh_bucket (s : ThrottlerState) (t : Throttle)
    (st : SanThrottle) (h : String) (hsan : sanitizeThrottle t = .ok st)
    (hh : h ∈ t.hostname) :
    addOne s t = .ok (addThrottle (removeHostnames s t.hostname) st) ∧
    lookupTh (addThrottle (removeHostnames s t.hostname) st) h =
      some (st, s.nextRef) ∧
    heapLookup (addThrottle (removeHostnames s t.hostname) st) s.nextRef =
      some (freshBucket st) ∧
    (freshBucket st).tokens = st.maxTokens ∧
    (freshBucket st).queue = [] ∧
    (freshBucket st).timerActive = false := by
  have hhost := (sanitize_fields t st hsan).1
  have hnr := (removeHostnames_heap s t.hostname).2
  refine ⟨?_, ?_, ?_, rfl, rfl, rfl⟩
  · simp [addOne, hsan]
  · rw [lookupTh_addThrottle_mem (removeHostnames s t.hostname) st h
      (hhost ▸ hh), hnr]
  · rw [← hnr]
    exact heapLookup_addThrottle (removeHostnames s t.hostname) st
/-- C9 witness: replacing the depleted throttle on `api.example.com` installs
a fresh bucket at level 3 (= the new maxTokens), with the hostname remapped to
the new throttle. -/
theorem claim_C9_fresh_bucket_witness :
    lookupTh (addThrottle (removeHostnames sW tW.hostname) stWnew)
        "api.example.com" = some (stWnew, sW.nextRef) ∧
    (freshBucket stWnew).tokens = stWnew.maxTokens :=
  ⟨(claim_C9_fresh_bucket sW tW stWnew "api.example.com" rfl
      (by decide)).2.1,
   (claim_C9_fresh_bucket sW tW stWnew "api.example.com" rfl
      (by decide)).2.2.2.1⟩

/-- C10: every bucket operation after construction — `removeTokens`, the
drain (`#take`), a replenishment tick, and any trace of such operations —
leaves `interval`, `tokensPerInterval` and `maxTokens` unchanged. -/
theorem claim_C10_frame :
    (∀ (b : Bucket) (q : Queuer),
      (b.removeTokens q).1.interval = b.interval ∧
      (b.removeTokens q).1.tokensPerInterval = b.tokensPerInterval ∧
      (b.removeTokens q).1.maxTokens = b.maxTokens) ∧
    (∀ b : Bucket,
      (b.take).1.interval = b.interval ∧
      (b.take).1.tokensPerInterval = b.tokensPerInterval ∧
      (b.take).1.maxTokens = b.maxTokens) ∧
    (∀ b : Bucket,
      (b.tick).1.interval = b.interval ∧
      (b.tick).1.tokensPerInterval = b.tokensPerInterval ∧
      (b.tick).1.maxTokens = b.maxTokens) ∧
    (∀ (b : Bucket) (ops : List Op),
      (b.run ops).interval = b.interval ∧
      (b.run ops).tokensPerInterval = b.tokensPerInterval ∧
      (b.run ops).maxTokens = b.maxTokens) :=
  ⟨removeTokens_frame, fun _ => ⟨rfl, rfl, rfl⟩, tick_frame, run_frame⟩
